import Mathlib

set_option maxHeartbeats 1000000
set_option maxRecDepth 4000

/-!
Shallow embedding of the BTree storage engine
(`src/include/db/fixed_datapage.h`, `src/include/db/datapage.h`,
`src/include/db/db_btree.h`, and the buffer pool header).

Records are fixed-width byte arrays of `RECORD_SIZE` bytes whose first
`KEY_SIZE` bytes form the key; a leaf page holds `RECORD_COUNT` record
slots, an occupancy bitmap, and a forward link `next_page_offset_`.
Bytes are modelled as `Nat` (each in `[0, 256)` on concrete inputs),
byte buffers as `List Nat`, and a page's record area slot-wise as a
`List (List Nat)` of `RECORD_COUNT` records.  Loops whose termination
is not structural (the snapped binary searches) take an explicit fuel
argument and return `none` when the fuel runs out; on every terminating
execution the result is independent of any sufficiently large fuel.
-/

abbrev Byte := Nat

/-- Model of `std::memcmp(a, b, n)` restricted to its sign: compares the
first `n` bytes of `a` and `b` byte-lexicographically. -/
def memcmpN : List Byte → List Byte → Nat → Int
  | _, _, 0 => 0
  | [], _, _ + 1 => 0
  | _, [], _ + 1 => 0
  | a :: as, b :: bs, n + 1 =>
    if a < b then -1 else if b < a then 1 else memcmpN as bs n

/-- Model of `FixedRecordDataPage`: forward link `next_page_offset_`, the
occupancy bitmap `bitmap_` (true = occupied), the record area
`record_data_` sliced into `RECORD_COUNT` slots, and the transient
`page_offset_`. -/
structure Page where
  page_offset : Nat
  next_page_offset : Nat
  bitmap : List Bool
  record_data : List (List Byte)
deriving Repr, DecidableEq

/-- Occupied slots of a page, visited in ascending slot index: the records
whose bitmap bit is 1.  This is the multiset of records the page stores. -/
def occupiedRecords (pg : Page) : List (List Byte) :=
  (pg.bitmap.zip pg.record_data).filterMap fun br => if br.1 then some br.2 else none

/-- Model of `size()`: the number of 1-bits of the bitmap. -/
def pageCount (pg : Page) : Nat := pg.bitmap.count true

/-- Model of `bitmap_->test` at a (possibly `int`-typed) index. -/
def bitTestI (bm : List Bool) (i : Int) : Bool :=
  bm.getD i.toNat false

/-- Loop body of `find_first_occupied`: outward scan from the ideal
midpoint, testing `to_left` before `to_right`, bounded by
`[lower_bound, upper_bound)`; returns `RECORD_COUNT` when both walkers
leave the window.  The fuel is chosen large enough that it never runs
out before the loop's own exit condition. -/
def ffoLoop (bm : List Bool) (RC : Nat) (lb ub : Int) : Int → Int → Nat → Nat
  | _, _, 0 => RC
  | toLeft, toRight, fuel + 1 =>
    if toLeft ≥ lb ∨ toRight < ub then
      if toLeft ≥ lb ∧ bitTestI bm toLeft then toLeft.toNat
      else if toRight < ub ∧ bitTestI bm toRight then toRight.toNat
      else ffoLoop bm RC lb ub (toLeft - 1) (toRight + 1) fuel
    else RC

/-- Model of `find_first_occupied(index, lower_bound, upper_bound)`. -/
def find_first_occupied (bm : List Bool) (RC index lb ub : Nat) : Nat :=
  ffoLoop bm RC lb ub index index (index + ub + 2)

/-- Loop of `search_lb` (`fixed_datapage.h` lines 188-212), with fuel:
`none` models non-termination of the `while` loop; `some RC` models
returning `end()`. -/
def search_lb_loop (pg : Page) (RC : Nat) (q : List Byte) : Nat → Nat → Nat → Option Nat
  | _, _, 0 => none
  | left, right, fuel + 1 =>
    if right - left > 1 then
      let mid := find_first_occupied pg.bitmap RC (left + (right - left) / 2) left right
      if mid = RC then some RC
      else
        let ret := memcmpN q (pg.record_data.getD mid []) q.length
        if ret ≤ 0 then
          if mid + 1 - left = 2 then
            if pg.bitmap.getD left false ∧
                memcmpN q (pg.record_data.getD left []) q.length ≤ 0 then
              search_lb_loop pg RC q left mid fuel
            else search_lb_loop pg RC q mid (mid + 1) fuel
          else search_lb_loop pg RC q left (mid + 1) fuel
        else search_lb_loop pg RC q (mid + 1) right fuel
    else some left

/-- Model of `search_lb(key_or_record)`: `q` is the bytes of the argument
and `q.length` the comparison width (`KEY_SIZE` or `RECORD_SIZE`). -/
def search_lb (pg : Page) (RC : Nat) (q : List Byte) (fuel : Nat) : Option Nat :=
  search_lb_loop pg RC q (find_first_occupied pg.bitmap RC 0 0 RC) RC fuel

/-- Loop of `search_ub` (`fixed_datapage.h` lines 232-267), with fuel. -/
def search_ub_loop (pg : Page) (RC : Nat) (q : List Byte) : Nat → Nat → Nat → Option Nat
  | _, _, 0 => none
  | left, right, fuel + 1 =>
    if right - left > 1 then
      let mid := find_first_occupied pg.bitmap RC (left + (right - left) / 2) left right
      if mid = RC then some left
      else
        let ret := memcmpN q (pg.record_data.getD mid []) q.length
        if ret < 0 then
          if mid + 1 - left = 2 then
            if pg.bitmap.getD left false ∧
                memcmpN q (pg.record_data.getD left []) q.length < 0 then
              search_ub_loop pg RC q left mid fuel
            else search_ub_loop pg RC q mid (mid + 1) fuel
          else search_ub_loop pg RC q left (mid + 1) fuel
        else search_ub_loop pg RC q (mid + 1) right fuel
    else some left

/-- Model of `search_ub(key_or_record)` (`fixed_datapage.h` lines 218-270):
empty page returns `begin()` (slot 0); if the argument is ≥ the largest
occupied record the code returns `end()` only when that record sits in the
last slot and otherwise returns the iterator one past it. -/
def search_ub (pg : Page) (RC : Nat) (q : List Byte) (fuel : Nat) : Option Nat :=
  if pg.bitmap.count true = 0 then some 0
  else
    let right := find_first_occupied pg.bitmap RC (RC - 1) 0 RC
    let ret := memcmpN q (pg.record_data.getD right []) q.length
    if ret ≥ 0 then
      if right = RC - 1 then some RC else some (right + 1)
    else search_ub_loop pg RC q 0 (right + 1) fuel

/-- Model of `search(key_or_record)`: exact match through `search_lb`. -/
def searchPage (pg : Page) (RC : Nat) (q : List Byte) (fuel : Nat) : Option Nat :=
  match search_lb pg RC q fuel with
  | none => none
  | some lb =>
    if lb = RC then some RC
    else if memcmpN q (pg.record_data.getD lb []) q.length = 0 then some lb
    else some RC

/-- Zero-filled record, as produced by `std::fill` with `'\0'`. -/
def zeroRecord (R : Nat) : List Byte := List.replicate R 0

/-- One iteration of the `solidify` loop at `src_index = src`: when the
slot is occupied and `dest_index ≠ src_index`, the record is copied down
to `dest_index` and its old slot zero-filled. -/
def solidifyStep (R : Nat) (st : List (List Byte) × Nat) (src : Nat) (occ : Bool) :
    List (List Byte) × Nat :=
  if occ then
    if st.2 ≠ src then
      ((st.1.set st.2 (st.1.getD src [])).set src (zeroRecord R), st.2 + 1)
    else (st.1, st.2 + 1)
  else st

/-- Model of `solidify()`: compacts all valid records to the prefix slots,
sets the bitmap to `[0, dest)` occupied and clears the rest, and returns
the start of the empty space. -/
def solidify (pg : Page) (RC R : Nat) : Page × Nat :=
  let st := ((List.range RC).zip pg.bitmap).foldl
    (fun st p => solidifyStep R st p.1 p.2) (pg.record_data, 0)
  ({ pg with
      record_data := st.1,
      bitmap := List.replicate st.2 true ++ List.replicate (RC - st.2) false }, st.2)

/-- Topmost free slot: the scan `it = --end(); while (it >= begin()) ...`
that `insert` uses to find the nearest vacancy from the tail. -/
def topFreeSlot (bm : List Bool) : Option Nat :=
  (List.range bm.length).reverse.find? fun i => ! bm.getD i false

/-- Byte move of `std::move(data + (lo+1)*R, data + (hi+1)*R, data + lo*R)`
in slot terms (memmove semantics, which is what `std::move` on
`unsigned char` ranges compiles to): slot `j` receives the old slot
`j+1` for `lo ≤ j < hi`. -/
def shiftSlotsDown (data : List (List Byte)) (lo hi : Nat) : List (List Byte) :=
  (List.range data.length).map fun j =>
    if lo ≤ j ∧ j < hi then data.getD (j + 1) [] else data.getD j []

/-- Byte move of the backward shift in `insert`: slot `j` receives the old
slot `j-1` for `lo ≤ j ≤ hi` (memmove semantics). -/
def shiftSlotsUp (data : List (List Byte)) (lo hi : Nat) : List (List Byte) :=
  (List.range data.length).map fun j =>
    if lo ≤ j ∧ j ≤ hi then data.getD (j - 1) [] else data.getD j []

/-- Bit shift of `while (it > ub) { set_bit(it, get_bit(it - 1)); --it; }`:
bit `i` receives the old bit `i-1` for `lo ≤ i ≤ hi` (the loop writes
top-down and reads below the write position, so it equals the
simultaneous shift). -/
def shiftBitsUp (bm : List Bool) (lo hi : Nat) : List Bool :=
  (List.range bm.length).map fun i =>
    if lo ≤ i ∧ i ≤ hi then bm.getD (i - 1) false else bm.getD i false

/-- Result of `insert`: the updated page together with the returned
iterator index (`RC` = `end()`) and `inserted` flag. -/
structure InsertResult where
  page : Page
  pos : Nat
  inserted : Bool
deriving Repr, DecidableEq

/-- Model of `insert(record, allow_dup)` (`fixed_datapage.h` lines
282-345).  `none` models non-termination of the underlying search.
In the `before_ub` branch the source's bit loop is
`set_bit(it, get_bit(it))`, which changes no bit; the model reproduces
that (no bitmap update besides the final `set_bit(ub, true)`). -/
def insertRecord (pg : Page) (RC R : Nat) (rec : List Byte) (allow_dup : Bool) (fuel : Nat) :
    Option InsertResult :=
  if pg.bitmap.count true = RC then some ⟨pg, RC, false⟩
  else
    let step : Option (Sum Nat InsertResult) :=
      if allow_dup then (search_ub pg RC rec fuel).map Sum.inl
      else
        match search_lb pg RC rec fuel with
        | none => none
        | some lb =>
          if lb ≠ RC ∧ memcmpN rec (pg.record_data.getD lb []) R = 0 then
            some (Sum.inr ⟨pg, lb, false⟩)
          else some (Sum.inl lb)
    match step with
    | none => none
    | some (Sum.inr r) => some r
    | some (Sum.inl ub0) =>
      let st := if ub0 = RC then solidify pg RC R else (pg, ub0)
      let pg1 := st.1
      let ub1 := st.2
      if pg1.bitmap.getD ub1 false = false then
        some ⟨{ pg1 with
                  record_data := pg1.record_data.set ub1 rec,
                  bitmap := pg1.bitmap.set ub1 true }, ub1, true⟩
      else
        match topFreeSlot pg1.bitmap with
        | none => none
        | some it =>
          if it < ub1 then
            let data1 := shiftSlotsDown pg1.record_data it (ub1 - 1)
            let ub2 := ub1 - 1
            some ⟨{ pg1 with
                      record_data := data1.set ub2 rec,
                      bitmap := pg1.bitmap.set ub2 true }, ub2, true⟩
          else
            let data1 := shiftSlotsUp pg1.record_data (ub1 + 1) it
            let bm1 := shiftBitsUp pg1.bitmap (ub1 + 1) it
            some ⟨{ pg1 with
                      record_data := data1.set ub1 rec,
                      bitmap := bm1.set ub1 true }, ub1, true⟩

/-- Model of the private `erase(size_t index)` (`fixed_datapage.h` lines
349-356): clears the bit and returns an iterator at the same index, or
`end()` when the slot is not occupied.  `erase(end())`, reached by
`erase(record)` on an absent record, reads one bit past the bitmap; the
padding bit of `std::bitset` is zero, so it behaves as an unoccupied
slot, which `getD _ false` reproduces. -/
def erase_at (pg : Page) (RC index : Nat) : Page × Nat :=
  if pg.bitmap.getD index false then
    ({ pg with bitmap := pg.bitmap.set index false }, index)
  else (pg, RC)

/-- Model of `erase(const Record&)`: `erase(search(record))`. -/
def erase_record (pg : Page) (RC : Nat) (rec : List Byte) (fuel : Nat) :
    Option (Page × Nat) :=
  (searchPage pg RC rec fuel).map fun idx => erase_at pg RC idx

/-- Model of `advance_to_valid(iterator(i))`: first occupied slot at index
`≥ i`, or `RC` (`end()`). -/
def advance_to_valid (pg : Page) (RC i : Nat) : Nat :=
  (((List.range RC).drop i).find? fun j => pg.bitmap.getD j false).getD RC

/-- Model of `split_with(right_sibling)` (`fixed_datapage.h` lines
368-401): solidify, copy the upper `RECORD_COUNT - RECORD_COUNT/2` slots
to the sibling's prefix, fix both bitmaps, relink
`right.next = self.next; self.next = right.own_offset`, and return
`*(right_sibling->min())`. -/
def split_with (pg rightSib : Page) (RC R : Nat) : Page × Page × List Byte :=
  let st := solidify pg RC R
  let pg1 := st.1
  let left_size := RC / 2
  let right_size := pg1.bitmap.count true - left_size
  let rdata := pg1.record_data.drop left_size ++ rightSib.record_data.drop (RC - left_size)
  let left2 := { pg1 with
    bitmap := pg1.bitmap.take left_size ++ List.replicate (RC - left_size) false,
    next_page_offset := rightSib.page_offset }
  let right2 := { rightSib with
    record_data := rdata,
    bitmap := List.replicate right_size true ++ rightSib.bitmap.drop right_size,
    next_page_offset := pg.next_page_offset }
  (left2, right2, right2.record_data.getD (advance_to_valid right2 RC 0) [])

/-- Model of `merge_with(right_sibling)` (`fixed_datapage.h` lines
433-458): solidify both, append the sibling's records after the left's,
set the bits, reset the sibling's bitmap, inherit the sibling's forward
link.  The source copies the sibling's whole `DATA_SIZE` bytes to
`record_data_ + left_empty_start * RECORD_SIZE`; the model keeps the
in-bounds portion of that copy. -/
def merge_with (l r : Page) (RC R : Nat) : Page × Page :=
  let ls := solidify l RC R
  let rs := solidify r RC R
  let l1 := ls.1
  let les := ls.2
  let r1 := rs.1
  let rsize := r1.bitmap.count true
  let ldata := l1.record_data.take les ++ r1.record_data.take (RC - les)
  let lbm := (List.range RC).map fun i =>
    if les ≤ i ∧ i < les + rsize then true else l1.bitmap.getD i false
  ({ l1 with record_data := ldata, bitmap := lbm, next_page_offset := r.next_page_offset },
   { r1 with bitmap := List.replicate RC false })

/-- Model of `borrow_from(right_sibling)` (`fixed_datapage.h` lines
461-492): solidify both, move the needed prefix of the sibling to the
left page's suffix, update both bitmaps, return `*(right_sibling->min())`. -/
def borrow_from (l r : Page) (RC R : Nat) : Page × Page × List Byte :=
  let left_size := l.bitmap.count true
  let right_size := r.bitmap.count true
  let target := (left_size + right_size) / 2
  let ls := solidify l RC R
  let rs := solidify r RC R
  let l1 := ls.1
  let les := ls.2
  let r1 := rs.1
  let to_move := target - left_size
  let ldata := l1.record_data.take les ++ r1.record_data.take to_move
      ++ l1.record_data.drop (les + to_move)
  let lbm := (List.range RC).map fun i =>
    if les ≤ i ∧ i < les + to_move then true else l1.bitmap.getD i false
  let rbm := (List.range RC).map fun i =>
    if i < to_move then false else r1.bitmap.getD i false
  let l2 := { l1 with record_data := ldata, bitmap := lbm }
  let r2 := { r1 with bitmap := rbm }
  (l2, r2, r2.record_data.getD (advance_to_valid r2 RC 0) [])

/-- Boolean check that a list of records is in non-decreasing order on the
first `K` bytes (the comparison the spec's ordered-iteration invariant
uses). -/
def keysSortedB (K : Nat) : List (List Byte) → Bool
  | [] => true
  | [_] => true
  | a :: b :: rest => decide (memcmpN a b K ≤ 0) && keysSortedB K (b :: rest)

/-- Records yielded by `DBBTreeIterator` while it traverses one page:
`increment()` (`db_btree.h` lines 70-77) does `++page_iter_` and only
tests `page_iter_ != page_->end()`, so every slot index in
`[0, RECORD_COUNT)` is visited and dereferenced, occupied or not. -/
def pageIterRecords (pg : Page) (RC : Nat) : List (List Byte) :=
  (List.range RC).map fun i => pg.record_data.getD i []

/-- Records yielded by iterating the engine from `begin()` to `end()`
over a chain of leaves linked by `next_page_offset_`: the per-page slot
walk of `pageIterRecords`, page after page. -/
def engineIterRecords (chain : List Page) (RC : Nat) : List (List Byte) :=
  (chain.map fun p => pageIterRecords p RC).flatten

/-- Model of `DataPage::extract_key` (`datapage.h` lines 230-234): the
code runs `std::copy(record.begin(), record.end(), key.begin())`, so all
`RECORD_SIZE` bytes of the record are written starting at the key's first
byte.  `extract_key_value` is the part that lands inside the `KEY_SIZE`
byte key object; `extract_key_spill` is the bytes written past its end. -/
def extract_key_bytes_written (record : List Byte) : List Byte := record

/-- Bytes of the `extract_key` copy that land inside the key object. -/
def extract_key_value (K : Nat) (record : List Byte) : List Byte :=
  (extract_key_bytes_written record).take K

/-- Bytes of the `extract_key` copy written outside the key object. -/
def extract_key_spill (K : Nat) (record : List Byte) : List Byte :=
  (extract_key_bytes_written record).drop K

/-- Little-endian bytes of a `uintmax_t` value. -/
def u64Bytes (n : Nat) : List Byte :=
  (List.range 8).map fun i => n / 256 ^ i % 256

/-- Value read back from the first 8 bytes of a buffer. -/
def readU64 (bytes : List Byte) : Nat :=
  (List.range 8).foldl (fun acc i => acc + bytes.getD i 0 * 256 ^ i) 0

/-- Size in bytes of `std::bitset<RC>` (word-aligned, 64-bit words). -/
def bitsetByteCount (RC : Nat) : Nat := (RC + 63) / 64 * 8

/-- Byte image of `std::bitset<RC>`: bit `i` is bit `i % 8` of byte
`i / 8` (x86 little-endian layout); padding bits are zero. -/
def bitsetBytes (RC : Nat) (bm : List Bool) : List Byte :=
  (List.range (bitsetByteCount RC)).map fun j =>
    (List.range 8).foldl (fun acc k => acc + if bm.getD (j * 8 + k) false then 2 ^ k else 0) 0

/-- Byte image of a page as the destructor writes it
(`fixed_datapage.h` lines 76-97): `next_page_offset_`, the bitmap, the
record data, then zero padding up to `PAGE_SIZE`. -/
def pageBytes (P RC R : Nat) (pg : Page) : List Byte :=
  u64Bytes pg.next_page_offset ++ bitsetBytes RC pg.bitmap ++ pg.record_data.flatten
    ++ List.replicate (P - (8 + bitsetByteCount RC + RC * R)) 0

/-- Contents of the page file after `~FixedRecordDataPage` runs on `pg`.
The destructor opens the file with `std::ofstream(path_, std::ios::binary)`
— openmode `out` alone, which truncates the file to zero length — then
seeks to `page_offset_` (zero-filling the gap) and writes the page image.
The previous file contents do not survive; the parameter records what was
overwritten. -/
def destructorWrite (_oldFile : List Byte) (pg : Page) (P RC R : Nat) : List Byte :=
  List.replicate pg.page_offset 0 ++ pageBytes P RC R pg

/-- Model of the loading constructor (`fixed_datapage.h` lines 40-68):
reads `next_page_offset_`, the bitmap and the record data from the file
at `file_offset`. -/
def loadPage (file : List Byte) (offset RC R : Nat) : Page :=
  let body := file.drop offset
  { page_offset := offset,
    next_page_offset := readU64 body,
    bitmap := (List.range RC).map fun i => (body.getD (8 + i / 8) 0).testBit (i % 8),
    record_data := (List.range RC).map fun i =>
      ((body.drop (8 + bitsetByteCount RC + i * R)).take R) }

/-- Model of `BufferPool` state: `pages_` is the LRU list (most recently
used first), each entry an offset with the number of handles held outside
the pool (`use_count() = 1 +` that number); plus the allocator state. -/
structure BufferPool where
  maxPages : Nat
  pages : List (Nat × Nat)
  emptyPagesStart : Nat
  discarded : List Nat
deriving Repr, DecidableEq

/-- Eviction scan of `get_page` (buffer pool header, lines 76-88), run on
the reversed LRU list (least recently used first):
`pages_it = --pages_.end(); while (pages_it != pages_.begin() &&
use_count > 1) --pages_it;` then throw if the stopping entry is still in
use, else evict it.  Returns the evicted offset, or `none` for the
throw; stopping at `begin()` on a pinned entry and throwing is the same
as recursing past the head into the empty list. -/
def evictScan : List (Nat × Nat) → Option Nat
  | [] => none
  | e :: rest => if e.2 > 0 then evictScan rest else some e.1

/-- Model of `BufferPool::get_page(offset)`: resident pages are spliced to
the front; otherwise, at capacity, the eviction scan runs and the page is
loaded and inserted at the front with no outside references yet. -/
def getPage (bp : BufferPool) (offset : Nat) : Except String BufferPool :=
  match bp.pages.find? (fun e => e.1 = offset) with
  | some e => .ok { bp with pages := e :: bp.pages.eraseP (fun x => x.1 = offset) }
  | none =>
    if bp.pages.length = bp.maxPages then
      match evictScan bp.pages.reverse with
      | none => .error "All pages are in use"
      | some ev =>
        .ok { bp with pages := (offset, 0) :: bp.pages.eraseP (fun x => x.1 = ev) }
    else
      .ok { bp with pages := (offset, 0) :: bp.pages }

/-- Model of `BufferPool::discard_page(offset)`: drop the page from the
cache if resident, then either roll back the empty-pages frontier (when
the slot is adjacent to it) or push the offset on the discarded list. -/
def discardPage (bp : BufferPool) (P offset : Nat) : BufferPool :=
  let bp1 :=
    if bp.pages.any (fun e => e.1 = offset) then
      { bp with pages := bp.pages.eraseP (fun e => e.1 = offset) }
    else bp
  if offset + P = bp1.emptyPagesStart then { bp1 with emptyPagesStart := offset }
  else { bp1 with discarded := bp1.discarded ++ [offset] }

/-- Modelled from the spec: the IndexTree of §4.3 (its implementation,
`fc/btree.h`, is not among the sources) as the finite map it maintains —
an association list of separators `(key, page_index)`.  Only
`insert_page` and `erase_page` are needed by the claims. -/
structure SepTree where
  seps : List (List Byte × Nat)
deriving Repr, DecidableEq

/-- Modelled from the spec: `insert_page(k, page_index)` adds a
separator. -/
def insert_page (t : SepTree) (k : List Byte) (idx : Nat) : SepTree :=
  { seps := t.seps ++ [(k, idx)] }

/-- Modelled from the spec: `erase_page(k, page_index)` removes the
separator with that key and page index. -/
def erase_page (t : SepTree) (k : List Byte) (idx : Nat) : SepTree :=
  { seps := t.seps.eraseP (fun s => s.1 == k && s.2 == idx) }

/-- Model of `copy_min_key()` (`datapage.h` line 326): `copy_key(0)`, the
first `KEY_SIZE` bytes of slot 0 regardless of occupancy. -/
def copy_min_key (pg : Page) (K : Nat) : List Byte :=
  (pg.record_data.getD 0 []).take K

/-- Engine state visible to `inspect_after_erase`: the leaf the erase hit,
the leaf loaded from its forward link, the buffer pool, and the
separator tree. -/
structure EngineState where
  page : Page
  sibling : Page
  pool : BufferPool
  tree : SepTree
deriving Repr, DecidableEq

/-- Model of `DBBTree::inspect_after_erase` (`db_btree.h` lines 262-280).
When the leaf underflows (`size() < max_size() / 2`) the sibling at
`page->next_page_offset_` is loaded; if both fit in one page they are
merged, the sibling's separator is erased from the tree, and
`buffer_pool_->discard_page(sibling->next_page_offset_)` is called — the
argument is the sibling's forward link, exactly as in the source.
Otherwise records are borrowed and the sibling's separator is replaced. -/
def inspect_after_erase (st : EngineState) (RC R K P : Nat) : EngineState :=
  let sibling_offset := st.page.next_page_offset
  if pageCount st.page < RC / 2 then
    if pageCount st.sibling + pageCount st.page ≤ RC then
      let m := merge_with st.page st.sibling RC R
      let tree1 := erase_page st.tree (copy_min_key m.2 K) (sibling_offset / P)
      let pool1 := discardPage st.pool P m.2.next_page_offset
      { page := m.1, sibling := m.2, pool := pool1, tree := tree1 }
    else
      let sibling_original_key := copy_min_key st.sibling K
      let b := borrow_from st.page st.sibling RC R
      let tree1 := erase_page st.tree sibling_original_key (sibling_offset / P)
      let tree2 := insert_page tree1 (extract_key_value K b.2.2) (sibling_offset / P)
      { page := b.1, sibling := b.2.1, pool := st.pool, tree := tree2 }
  else st

/-! Concrete instances used by the claim theorems. -/

/-- Engine with a single leaf (`RECORD_COUNT = 2`, `RECORD_SIZE = KEY_SIZE = 1`):
slot 0 holds the record `[2]`, slot 1 is vacant (zero bytes). -/
def pgC1 : Page := ⟨16, 32, [true, false], [[2], [0]]⟩

/-- Leaf with `RECORD_COUNT = 3`, slot 0 free, slots 1-2 holding `[1]` and
`[3]`; inserting `[2]` exercises the `before_ub` branch of `insert`. -/
def pgC2 : Page := ⟨16, 32, [false, true, true], [[9], [1], [3]]⟩

/-- Sparse leaf (`RECORD_COUNT = 4`): slots 0 and 3 occupied, the bitmap
pattern `1001` that makes the snapped binary search oscillate. -/
def pgC3a : Page := ⟨16, 32, [true, false, false, true], [[0], [9], [9], [3]]⟩

/-- Leaf with slots 0-2 occupied and a trailing free slot 3. -/
def pgC3b : Page := ⟨16, 32, [true, true, true, false], [[1], [3], [5], [0]]⟩

/-- Sparse leaf with bitmap `1001`, for the `search_ub` divergence. -/
def pgC4a : Page := ⟨16, 32, [true, false, false, true], [[0], [9], [9], [3]]⟩

/-- Leaf with slots 0-2 occupied and a trailing free slot 3, for the
`search_ub` no-upper-bound case. -/
def pgC4b : Page := ⟨16, 32, [true, true, true, false], [[1], [3], [5], [0]]⟩

/-- C1.  The claim says iterating the engine from `begin()` to `end()`
yields the stored records in non-decreasing key order.  On a one-leaf
engine storing only `[2]` (slot 1 vacant), the iterator of
`DBBTree::DBBTreeIterator::increment` visits every slot index, so the
iteration yields `[2]` and then the vacant slot's bytes `[0]` — a
sequence that is not the stored records and whose keys decrease. -/
theorem engine_iteration_yields_vacant_slots :
    engineIterRecords [pgC1] 2 = [[2], [0]] ∧
    keysSortedB 1 (engineIterRecords [pgC1] 2) = false ∧
    occupiedRecords pgC1 = [[2]] ∧
    engineIterRecords [pgC1] 2 ≠ occupiedRecords pgC1 := by decide

/-- C2.  The claim says a successful `insert` increases `size()` by one
and keeps the occupied slots' records.  On the page `pgC2` (records
`[1]`, `[3]` at slots 1-2, slot 0 free), inserting `[2]` takes the
`before_ub` branch whose bit loop is the no-op `set_bit(it, get_bit(it))`:
the call returns `inserted = true` at slot 1, yet the size stays 2 and
the record `[1]` disappears from the occupied slots. -/
theorem insert_before_ub_drops_record :
    insertRecord pgC2 3 1 [2] true 50 =
      some ⟨⟨16, 32, [false, true, true], [[1], [2], [3]]⟩, 1, true⟩ ∧
    pageCount pgC2 = 2 ∧
    occupiedRecords pgC2 = [[1], [3]] ∧
    pageCount ⟨16, 32, [false, true, true], [[1], [2], [3]]⟩ = 2 ∧
    occupiedRecords ⟨16, 32, [false, true, true], [[1], [2], [3]]⟩ = [[2], [3]] := by
  decide

/-- C3.  The claim says `search_lb(q)` returns the smallest-index occupied
slot whose record is ≥ `q`, and `end()` when every occupied record is
< `q`.  On the sparse bitmap `1001` with records `[0]` and `[3]` and
query `[2]`, the loop's window stays at `[0, 4)` forever (the midpoint
snaps to slot 3 and `right` is reset to 4 on every iteration), so the
call never returns for any amount of fuel; and on `pgC3b`, where every
occupied record is < `[9]` but slot 3 is free, it terminates with the
unoccupied slot 3 instead of `end() = 4`. -/
theorem search_lb_contract_violated :
    (∀ fuel, search_lb pgC3a 4 [2] fuel = none) ∧
    (search_lb pgC3b 4 [9] 50 = some 3 ∧
     pgC3b.bitmap.getD 3 false = false ∧
     keysSortedB 1 (occupiedRecords pgC3b) = true) := by
  refine ⟨fun fuel => ?_, by decide⟩
  show search_lb_loop pgC3a 4 [2] 0 4 fuel = none
  induction fuel with
  | zero => rfl
  | succ n ih => exact ih

/-- C4.  The claim says `search_ub(q)` returns the smallest-index occupied
slot whose record is > `q`, and `end()` when no occupied record exceeds
`q`.  On the sparse bitmap `1001` with query `[2]` the loop's window
stays at `[0, 4)` forever, so the call never returns; and on `pgC4b`,
where `[9]` exceeds every occupied record, the code returns the first
trailing free slot 3 (`// The first empty spot`) instead of `end() = 4`. -/
theorem search_ub_contract_violated :
    (∀ fuel, search_ub pgC4a 4 [2] fuel = none) ∧
    (search_ub pgC4b 4 [9] 50 = some 3 ∧
     pgC4b.bitmap.getD 3 false = false) := by
  refine ⟨fun fuel => ?_, by decide⟩
  show search_ub_loop pgC4a 4 [2] 0 4 fuel = none
  induction fuel with
  | zero => rfl
  | succ n ih => exact ih

/-- C10.  The claim says `extract_key(r)` copies exactly the first `K`
bytes of the record and writes nothing outside the key object.  The code
copies `record.begin()` to `record.end()` — all `R` bytes — into the
`K`-byte key, so for `R = 2, K = 1` and record `[5, 7]` the byte `7` is
written past the end of the key object. -/
theorem extract_key_writes_out_of_bounds :
    extract_key_value 1 [5, 7] = [5] ∧
    extract_key_spill 1 [5, 7] = [7] ∧
    extract_key_spill 1 [5, 7] ≠ [] ∧
    (extract_key_bytes_written [5, 7]).length = 2 := by decide

/-- Underflowing leaf for the C6 scenario (`P = 16`, `RECORD_COUNT = 4`,
`RECORD_SIZE = 2`, `KEY_SIZE = 1`): one record, forward link to the
sibling at offset 32. -/
def pgC6L : Page := ⟨16, 32, [true, false, false, false], [[1, 1], [0, 0], [0, 0], [0, 0]]⟩

/-- Sibling leaf at offset 32 with one record and forward link 48. -/
def pgC6R : Page := ⟨32, 48, [true, false, false, false], [[5, 5], [0, 0], [0, 0], [0, 0]]⟩

/-- Engine state before `inspect_after_erase`: both leaves resident, the
frontier at 80, no discarded slots, separators for both leaves. -/
def stC6 : EngineState :=
  ⟨pgC6L, pgC6R, ⟨4, [(16, 1), (32, 1)], 80, []⟩, ⟨[([1], 1), ([5], 2)]⟩⟩

/-- C6.  The claim says that after a merge the sibling's own page slot is
discarded back to the pool's free space.  In the scenario `stC6` the
leaf (size 1) underflows, the sizes fit (`1 + 1 ≤ 4`) so the merge
branch runs, and the sibling's separator `([5], 2)` is indeed erased —
but `discard_page` is called with `sibling->next_page_offset_ = 48`, not
with the sibling's own offset 32: offset 48 lands on the discarded list
while slot 32 is never returned to the free space. -/
theorem inspect_after_erase_discards_wrong_offset :
    (inspect_after_erase stC6 4 2 1 16).pool.discarded = [48] ∧
    stC6.sibling.page_offset = 32 ∧
    stC6.sibling.next_page_offset = 48 ∧
    ¬ (32 ∈ (inspect_after_erase stC6 4 2 1 16).pool.discarded) ∧
    (inspect_after_erase stC6 4 2 1 16).pool.emptyPagesStart = stC6.pool.emptyPagesStart ∧
    (inspect_after_erase stC6 4 2 1 16).tree.seps = [([1], 1)] ∧
    occupiedRecords (inspect_after_erase stC6 4 2 1 16).page = [[1, 1], [5, 5]] := by
  decide

/-- Page for the persistence scenario: `P = 64`, `RECORD_SIZE = 16`,
`RECORD_COUNT = 3`; lives at offset 64, slots 0 and 2 occupied. -/
def pgC8 : Page :=
  ⟨64, 128, [true, false, true],
   [1 :: List.replicate 15 0, List.replicate 16 0, 3 :: List.replicate 15 0]⟩

/-- Page file before the destructor runs: three pages (header, `pgC8`'s
slot, and a second leaf whose first byte is 7 at offset 128). -/
def fileC8 : List Byte := List.replicate 128 0 ++ (7 :: List.replicate 63 0)

/-- C8.  The claim says writing a page back on destruction alters no byte
of any other page and that persist-then-reopen preserves every record.
The destructor opens the file with `std::ofstream(path_, std::ios::binary)`,
whose openmode truncates the file: after destructing the page at offset
64, the page itself round-trips, but the file has shrunk to 128 bytes
and the leaf that lived at offset 128 (first byte 7) is gone. -/
theorem destructor_truncates_page_file :
    loadPage (destructorWrite fileC8 pgC8 64 3 16) 64 3 16 = pgC8 ∧
    fileC8.getD 128 0 = 7 ∧
    (destructorWrite fileC8 pgC8 64 3 16).getD 128 0 = 0 ∧
    (destructorWrite fileC8 pgC8 64 3 16).length = 128 ∧
    fileC8.length = 192 := by decide

/-- Leaf with two occupied slots for the erase counterexample
(`RECORD_COUNT = 2`). -/
def pgC7 : Page := ⟨16, 32, [true, true], [[1], [2]]⟩

/-- C7 counterexample.  The claim says `erase(iter)` returns the iterator
stepped to the next valid slot or `end()`.  Erasing slot 0 of `pgC7`
returns an iterator at index 0 — the erased slot itself, now vacant —
while the next valid slot is 1 and `end()` is 2. -/
theorem erase_returns_same_slot :
    (erase_at pgC7 2 0).2 = 0 ∧
    advance_to_valid (erase_at pgC7 2 0).1 2 1 = 1 ∧
    (erase_at pgC7 2 0).2 ≠ 1 ∧
    (erase_at pgC7 2 0).2 ≠ 2 := by decide

/-- C7 (amended).  `erase(iter)` on an occupied slot clears that slot's
occupancy bit without shifting any records and returns an iterator at
that same slot index (not advanced); `erase(record)` for a record whose
search terminates without a match returns `end()` and leaves the page's
bitmap and record data unchanged. -/
theorem erase_contract_amended (pg : Page) (RC i : Nat)
    (hlen : pg.bitmap.length = RC)
    (hocc : pg.bitmap.getD i false = true) :
    erase_at pg RC i = ({ pg with bitmap := pg.bitmap.set i false }, i) ∧
    (erase_at pg RC i).1.record_data = pg.record_data ∧
    (∀ rec fuel, searchPage pg RC rec fuel = some RC →
      erase_record pg RC rec fuel = some (pg, RC)) := by
  have h1 : erase_at pg RC i = ({ pg with bitmap := pg.bitmap.set i false }, i) := by
    unfold erase_at
    rw [hocc]
    simp
  refine ⟨h1, by rw [h1], ?_⟩
  intro rec fuel h
  have hRC : pg.bitmap.getD RC false = false := by
    apply List.getD_eq_default
    exact hlen.le
  unfold erase_record
  rw [h]
  have h2 : erase_at pg RC RC = (pg, RC) := by
    unfold erase_at
    rw [hRC]
    simp
  simp [h2]

/-- C7 witness: the amended contract at the concrete page `pgC7`, slot 0. -/
theorem erase_contract_amended_witness :
    (pgC7.bitmap.length = 2 ∧ pgC7.bitmap.getD 0 false = true) ∧
    erase_at pgC7 2 0 = ({ pgC7 with bitmap := pgC7.bitmap.set 0 false }, 0) :=
  ⟨⟨by decide, by decide⟩, (erase_contract_amended pgC7 2 0 (by decide) (by decide)).1⟩

/-- Helper: the `solidify` loop over an all-occupied range moves nothing
and advances `dest_index` in lockstep with `src_index`. -/
lemma solidify_fold_true (R : Nat) :
    ∀ (n k : Nat) (data : List (List Byte)),
      ((List.range' k n).zip (List.replicate n true)).foldl
        (fun st p => solidifyStep R st p.1 p.2) (data, k) = (data, k + n) := by
  intro n
  induction n with
  | zero => intro k data; simp
  | succ m ih =>
    intro k data
    rw [List.range'_succ, List.replicate_succ, List.zip_cons_cons, List.foldl_cons]
    have hstep : solidifyStep R (data, k) k true = (data, k + 1) := by
      simp [solidifyStep]
    rw [hstep, ih (k + 1) data]
    have : k + 1 + m = k + (m + 1) := by omega
    rw [this]

/-- Helper: `solidify` on a full page is the identity on the record data
and returns `RECORD_COUNT`. -/
lemma solidify_full (RC R : Nat) (pg : Page)
    (hbm : pg.bitmap = List.replicate RC true) :
    solidify pg RC R = ({ pg with bitmap := List.replicate RC true }, RC) := by
  unfold solidify
  rw [hbm, List.range_eq_range', solidify_fold_true R RC 0 pg.record_data]
  simp

/-- Helper: occupied records under a bitmap with an all-true prefix. -/
lemma filterMap_zip_replicate_true :
    ∀ (a : Nat) (bmrest : List Bool) (data : List (List Byte)),
      ((List.replicate a true ++ bmrest).zip data).filterMap
        (fun br => if br.1 then some br.2 else none) =
      data.take a ++ ((bmrest.zip (data.drop a)).filterMap
        (fun br => if br.1 then some br.2 else none)) := by
  intro a
  induction a with
  | zero => intro bmrest data; simp
  | succ m ih =>
    intro bmrest data
    cases data with
    | nil => simp
    | cons d ds => simp [List.replicate_succ, ih]

/-- Helper: an all-false bitmap contributes no occupied records. -/
lemma filterMap_zip_replicate_false :
    ∀ (b : Nat) (data : List (List Byte)),
      ((List.replicate b false).zip data).filterMap
        (fun br => if br.1 then some br.2 else none) = [] := by
  intro b
  induction b with
  | zero => intro data; simp
  | succ m ih =>
    intro data
    cases data with
    | nil => simp
    | cons d ds => simp [List.replicate_succ, ih]

/-- Helper: the occupied records of a page whose bitmap is `a` set bits
followed by `b` clear bits are the first `a` record slots. -/
lemma occupiedRecords_of_replicate (a b : Nat) (pg : Page)
    (hbm : pg.bitmap = List.replicate a true ++ List.replicate b false) :
    occupiedRecords pg = pg.record_data.take a := by
  unfold occupiedRecords
  rw [hbm, filterMap_zip_replicate_true, filterMap_zip_replicate_false]
  simp

/-- Helper: bit count of a compacted bitmap. -/
lemma count_replicate_append (a b : Nat) :
    (List.replicate a true ++ List.replicate b false).count true = a := by
  simp [List.count_replicate]

/-- Helper: `advance_to_valid` from slot 0 stops at 0 when slot 0 is
occupied. -/
lemma advance_to_valid_zero (pg : Page) (RC : Nat) (hRC : 0 < RC)
    (h0 : pg.bitmap.getD 0 false = true) :
    advance_to_valid pg RC 0 = 0 := by
  unfold advance_to_valid
  cases RC with
  | zero => omega
  | succ m =>
    rw [List.drop_zero, List.range_succ_eq_map,
      List.find?_cons_of_pos _ (by simpa using h0)]
    rfl

/-- C5.  `split_with` on a full page with an empty sibling whose own
offset is known: the upper half of the records moves to the sibling
starting at slot 0, both pages end with at least `⌊RECORD_COUNT/2⌋`
records, the two record sequences concatenate back to the original,
`right.next_offset` takes the old `next_offset`, `self.next_offset`
takes the sibling's own offset, and the returned promote record is the
sibling's first (minimum) record. -/
theorem split_with_spec (RC R : Nat) (pg rightSib : Page)
    (hRC : 0 < RC)
    (hbm : pg.bitmap = List.replicate RC true)
    (hdata : pg.record_data.length = RC)
    (hrbm : rightSib.bitmap = List.replicate RC false) :
    occupiedRecords (split_with pg rightSib RC R).1 = pg.record_data.take (RC / 2) ∧
    occupiedRecords (split_with pg rightSib RC R).2.1 = pg.record_data.drop (RC / 2) ∧
    occupiedRecords (split_with pg rightSib RC R).1
      ++ occupiedRecords (split_with pg rightSib RC R).2.1 = occupiedRecords pg ∧
    pageCount (split_with pg rightSib RC R).1 = RC / 2 ∧
    pageCount (split_with pg rightSib RC R).2.1 = RC - RC / 2 ∧
    RC / 2 ≤ pageCount (split_with pg rightSib RC R).1 ∧
    RC / 2 ≤ pageCount (split_with pg rightSib RC R).2.1 ∧
    (split_with pg rightSib RC R).2.1.next_page_offset = pg.next_page_offset ∧
    (split_with pg rightSib RC R).1.next_page_offset = rightSib.page_offset ∧
    (split_with pg rightSib RC R).2.2 = pg.record_data.getD (RC / 2) [] ∧
    (split_with pg rightSib RC R).2.2
      = (occupiedRecords (split_with pg rightSib RC R).2.1).getD 0 [] := by
  have hsol := solidify_full RC R pg hbm
  have hls : RC / 2 ≤ RC := Nat.div_le_self RC 2
  have hrs1 : 1 ≤ RC - RC / 2 := by omega
  -- explicit form of the three components
  have hL : (split_with pg rightSib RC R).1 =
      { pg with
          bitmap := List.replicate (RC / 2) true ++ List.replicate (RC - RC / 2) false,
          next_page_offset := rightSib.page_offset } := by
    simp only [split_with, hsol]
    rw [List.take_replicate, Nat.min_eq_left hls]
  have hR : (split_with pg rightSib RC R).2.1 =
      { rightSib with
          record_data := pg.record_data.drop (RC / 2)
            ++ rightSib.record_data.drop (RC - RC / 2),
          bitmap := List.replicate (RC - RC / 2) true
            ++ List.replicate (RC - (RC - RC / 2)) false,
          next_page_offset := pg.next_page_offset } := by
    simp only [split_with, hsol, hrbm]
    rw [List.count_replicate, List.drop_replicate]
    simp
  have hRdata : ((split_with pg rightSib RC R).2.1).record_data.take (RC - RC / 2)
      = pg.record_data.drop (RC / 2) := by
    rw [hR]
    have hlen : (pg.record_data.drop (RC / 2)).length = RC - RC / 2 := by
      rw [List.length_drop, hdata]
    exact List.take_left' hlen
  have hOccL : occupiedRecords (split_with pg rightSib RC R).1
      = pg.record_data.take (RC / 2) := by
    have := occupiedRecords_of_replicate (RC / 2) (RC - RC / 2)
      (split_with pg rightSib RC R).1 (by rw [hL])
    rw [this, hL]
  have hOccR : occupiedRecords (split_with pg rightSib RC R).2.1
      = pg.record_data.drop (RC / 2) := by
    have := occupiedRecords_of_replicate (RC - RC / 2) (RC - (RC - RC / 2))
      (split_with pg rightSib RC R).2.1 (by rw [hR])
    rw [this, hRdata]
  have hOccP : occupiedRecords pg = pg.record_data := by
    have := occupiedRecords_of_replicate RC 0 pg (by rw [hbm]; simp)
    rw [this, ← hdata, List.take_length]
  have hCntL : pageCount (split_with pg rightSib RC R).1 = RC / 2 := by
    rw [pageCount, hL]
    exact count_replicate_append _ _
  have hCntR : pageCount (split_with pg rightSib RC R).2.1 = RC - RC / 2 := by
    rw [pageCount, hR]
    exact count_replicate_append _ _
  have hProm : (split_with pg rightSib RC R).2.2
      = pg.record_data.getD (RC / 2) [] := by
    have hadv : advance_to_valid (split_with pg rightSib RC R).2.1 RC 0 = 0 := by
      apply advance_to_valid_zero _ _ hRC
      rw [hR]
      obtain ⟨t, ht⟩ : ∃ t, RC - RC / 2 = t + 1 := ⟨RC - RC / 2 - 1, by omega⟩
      simp [ht, List.replicate_succ]
    have : (split_with pg rightSib RC R).2.2
        = ((split_with pg rightSib RC R).2.1).record_data.getD
            (advance_to_valid (split_with pg rightSib RC R).2.1 RC 0) [] := by
      simp only [split_with, hsol]
    rw [this, hadv]
    have hlen : (pg.record_data.drop (RC / 2)).length = RC - RC / 2 := by
      rw [List.length_drop, hdata]
    rw [hR]
    show ((pg.record_data.drop (RC / 2)) ++ _).getD 0 [] = _
    rw [List.getD_eq_getElem?_getD,
      List.getElem?_append_left (by rw [hlen]; omega),
      List.getElem?_drop, Nat.add_zero, ← List.getD_eq_getElem?_getD]
  refine ⟨hOccL, hOccR, ?_, hCntL, hCntR, le_of_eq hCntL.symm, ?_, ?_, ?_, hProm, ?_⟩
  · rw [hOccL, hOccR, hOccP, List.take_append_drop]
  · omega
  · rw [hR]
  · rw [hL]
  · rw [hProm, hOccR, List.getD_eq_getElem?_getD, List.getD_eq_getElem?_getD,
      List.getElem?_drop, Nat.add_zero]

/-- Full page for the C5 witness (`RECORD_COUNT = 4`, `RECORD_SIZE = 2`). -/
def pgC5 : Page := ⟨16, 48, [true, true, true, true], [[1, 9], [2, 9], [3, 9], [4, 9]]⟩

/-- Empty sibling at offset 32 for the C5 witness. -/
def pgC5sib : Page := ⟨32, 0, [false, false, false, false], [[0, 0], [0, 0], [0, 0], [0, 0]]⟩

/-- C5 witness: the split contract applied to the concrete full page
`pgC5` and empty sibling `pgC5sib`. -/
theorem split_with_spec_witness :
    (0 < 4 ∧ pgC5.bitmap = List.replicate 4 true ∧ pgC5.record_data.length = 4 ∧
      pgC5sib.bitmap = List.replicate 4 false) ∧
    occupiedRecords (split_with pgC5 pgC5sib 4 2).1 = pgC5.record_data.take (4 / 2) :=
  ⟨⟨by decide, by decide, by decide, by decide⟩,
   (split_with_spec 4 2 pgC5 pgC5sib (by decide) (by decide) (by decide) (by decide)).1⟩

lemma evictScan_eq_none (l : List (Nat × Nat)) :
    evictScan l = none ↔ ∀ x ∈ l, 0 < x.2 := by
  induction l with
  | nil => simp [evictScan]
  | cons e rest ih =>
    by_cases he : e.2 > 0
    · simp only [evictScan, if_pos he, ih]
      constructor
      · intro h x hx
        rcases List.mem_cons.mp hx with h1 | h2
        · rw [h1]; exact he
        · exact h x h2
      · intro h x hx
        exact h x (List.mem_cons_of_mem _ hx)
    · simp only [evictScan, if_neg he]
      constructor
      · intro h
        cases h
      · intro h
        exact absurd (h e (List.mem_cons_self _ _)) he

lemma evictScan_some_mem (l : List (Nat × Nat)) (o : Nat)
    (h : evictScan l = some o) : ∃ x ∈ l, x.1 = o ∧ x.2 = 0 := by
  induction l with
  | nil => simp [evictScan] at h
  | cons e rest ih =>
    by_cases he : e.2 > 0
    · simp only [evictScan, if_pos he] at h
      obtain ⟨x, hx, h1, h2⟩ := ih h
      exact ⟨x, List.mem_cons_of_mem _ hx, h1, h2⟩
    · simp only [evictScan, if_neg he] at h
      exact ⟨e, List.mem_cons_self _ _, Option.some.inj h, by omega⟩

lemma evictScan_append (l₁ : List (Nat × Nat)) (e : Nat × Nat) (l₂ : List (Nat × Nat))
    (h₁ : ∀ x ∈ l₁, 0 < x.2) (he : e.2 = 0) :
    evictScan (l₁ ++ e :: l₂) = some e.1 := by
  induction l₁ with
  | nil => simp [evictScan, he]
  | cons a rest ih =>
    have ha : a.2 > 0 := h₁ a (List.mem_cons_self _ _)
    simp only [List.cons_append, evictScan, if_pos ha]
    exact ih fun x hx => h₁ x (List.mem_cons_of_mem _ hx)

lemma eraseP_append_not_head (l₁ l₂ : List (Nat × Nat)) (p : Nat × Nat → Bool)
    (h : ∀ x ∈ l₁, p x = false) :
    (l₁ ++ l₂).eraseP p = l₁ ++ l₂.eraseP p := by
  induction l₁ with
  | nil => simp
  | cons a rest ih =>
    have ha : p a = false := h a (List.mem_cons_self _ _)
    simp only [List.cons_append, List.eraseP_cons, ha, cond_false]
    rw [ih fun x hx => h x (List.mem_cons_of_mem _ hx)]

/-- C9.  `get_page` keeps at most `max_pages` resident pages; when called
for a non-resident offset with the cache at capacity it evicts the
least-recently-used page with no outside reference (an entry with
refcount one whose every less-recently-used neighbour is pinned) and
loads the new page at the front, and it fails if and only if every
resident page has an outstanding external reference. -/
theorem getPage_spec (bp : BufferPool) (off : Nat)
    (hlen : bp.pages.length ≤ bp.maxPages)
    (hnodup : (bp.pages.map Prod.fst).Nodup) :
    (∀ bp', getPage bp off = .ok bp' → bp'.pages.length ≤ bp.maxPages) ∧
    (bp.pages.find? (fun e => e.1 = off) = none → bp.pages.length = bp.maxPages →
      (((getPage bp off).isOk = false) ↔ ∀ x ∈ bp.pages, 0 < x.2) ∧
      (∀ l₁ e l₂, bp.pages = l₁ ++ e :: l₂ → e.2 = 0 → (∀ x ∈ l₂, 0 < x.2) →
        getPage bp off = .ok { bp with pages := (off, 0) :: (l₁ ++ l₂) })) := by
  constructor
  · intro bp' hok
    unfold getPage at hok
    cases hfind : bp.pages.find? (fun e => e.1 = off) with
    | some e =>
      rw [hfind] at hok
      have hmem : e ∈ bp.pages := List.mem_of_find?_eq_some hfind
      have hpe := List.find?_some hfind
      have hres : bp'.pages = e :: bp.pages.eraseP (fun x => x.1 = off) := by
        cases hok
        rfl
      rw [hres, List.length_cons, List.length_eraseP_of_mem hmem hpe]
      have : 0 < bp.pages.length := List.length_pos_of_mem hmem
      omega
    | none =>
      rw [hfind] at hok
      by_cases hcap : bp.pages.length = bp.maxPages
      · rw [if_pos hcap] at hok
        cases hev : evictScan bp.pages.reverse with
        | none => rw [hev] at hok; cases hok
        | some ev =>
          rw [hev] at hok
          obtain ⟨x, hx, hx1, hx2⟩ := evictScan_some_mem _ _ hev
          rw [List.mem_reverse] at hx
          have hpx : (fun y => decide (y.1 = ev)) x = true := decide_eq_true hx1
          have hres : bp'.pages = (off, 0) :: bp.pages.eraseP (fun y => y.1 = ev) := by
            cases hok
            rfl
          rw [hres, List.length_cons, List.length_eraseP_of_mem hx hpx]
          have : 0 < bp.pages.length := List.length_pos_of_mem hx
          omega
      · rw [if_neg hcap] at hok
        have hres : bp'.pages = (off, 0) :: bp.pages := by
          cases hok
          rfl
        rw [hres, List.length_cons]
        omega
  · intro hfind hcap
    constructor
    · unfold getPage
      rw [hfind, if_pos hcap]
      cases hev : evictScan bp.pages.reverse with
      | none =>
        rw [evictScan_eq_none] at hev
        constructor
        · intro _ x hx
          exact hev x (List.mem_reverse.mpr hx)
        · intro _
          rfl
      | some ev =>
        constructor
        · intro h
          cases h
        · intro hall
          have hnone : evictScan bp.pages.reverse = none := by
            rw [evictScan_eq_none]
            intro x hx
            exact hall x (List.mem_reverse.mp hx)
          rw [hnone] at hev
          cases hev
    · intro l₁ e l₂ hsplit he hpinned
      unfold getPage
      rw [hfind, if_pos hcap]
      have hrev : bp.pages.reverse = l₂.reverse ++ e :: l₁.reverse := by
        rw [hsplit]
        simp
      have hev : evictScan bp.pages.reverse = some e.1 := by
        rw [hrev]
        exact evictScan_append _ _ _ (fun x hx => hpinned x (List.mem_reverse.mp hx)) he
      rw [hev]
      have hne : ∀ x ∈ l₁, (fun y => decide (y.1 = e.1)) x = false := by
        intro x hx
        apply decide_eq_false
        intro heq
        have hdup := hnodup
        rw [hsplit] at hdup
        simp only [List.map_append, List.map_cons] at hdup
        rw [List.nodup_append] at hdup
        have hdisj := hdup.2.2
        have hx1 : x.1 ∈ l₁.map Prod.fst := List.mem_map_of_mem _ hx
        exact hdisj hx1 (by rw [heq]; exact List.mem_cons_self _ _)
      have herase : bp.pages.eraseP (fun y => y.1 = e.1) = l₁ ++ l₂ := by
        rw [hsplit, eraseP_append_not_head _ _ _ hne]
        simp [List.eraseP_cons]
      show Except.ok { bp with pages := (off, 0) :: bp.pages.eraseP (fun x => x.1 = e.1) }
        = Except.ok { bp with pages := (off, 0) :: (l₁ ++ l₂) }
      rw [herase]

/-- Pool at capacity 2 for the C9 witness: the front page is pinned by
one outside handle, the back page is not. -/
def bpC9 : BufferPool := ⟨2, [(16, 1), (32, 0)], 80, []⟩

/-- C9 witness: requesting non-resident offset 48 with the cache at
capacity evicts the unpinned LRU page at offset 32 and loads 48 at the
front. -/
theorem getPage_spec_witness :
    (bpC9.pages.length ≤ bpC9.maxPages ∧ (bpC9.pages.map Prod.fst).Nodup ∧
      bpC9.pages.find? (fun e => e.1 = 48) = none ∧
      bpC9.pages.length = bpC9.maxPages ∧
      bpC9.pages = [(16, 1)] ++ (32, 0) :: [] ∧ ((32, 0) : Nat × Nat).2 = 0) ∧
    getPage bpC9 48 = .ok { bpC9 with pages := (48, 0) :: ([(16, 1)] ++ []) } :=
  ⟨⟨by decide, by decide, by decide, by decide, by decide, by decide⟩,
   ((getPage_spec bpC9 48 (by decide) (by decide)).2 (by decide) (by decide)).2
     [(16, 1)] (32, 0) [] (by decide) (by decide) (by decide)⟩
